import Mathlib

/-!
Verification of the gitgres storage engine: a shallow embedding of the
OID codec, the object hasher, the tree-entry parser, the object-DB and
ref-DB backends, and the remote-helper `list` command, with theorems
checking the natural-language specification against the code.

Byte strings are modelled as `List Nat` (each element an octet value);
SQL tables are modelled as lists of row structures; every query issued
by the C backends is embedded as a pure function on those lists.
-/

namespace Gitgres

/-! ## OID codec (C extension `git_oid_in` / `git_oid_out`) -/

/-- Embeds `hex_to_nibble` from the C extension: ranges '0'-'9',
'a'-'f', 'A'-'F' map to 0..15, anything else to -1. The argument is the
byte value of the character. -/
def hex_to_nibble (c : Nat) : Int :=
  if 48 ≤ c ∧ c ≤ 57 then (c : Int) - 48
  else if 97 ≤ c ∧ c ≤ 102 then (c : Int) - 97 + 10
  else if 65 ≤ c ∧ c ≤ 70 then (c : Int) - 65 + 10
  else -1

/-- Embeds `nibble_to_hex`: indexes `"0123456789abcdef"` at `n & 0xf`;
returns the byte value of the hex digit. -/
def nibble_to_hex (n : Nat) : Nat :=
  [48, 49, 50, 51, 52, 53, 54, 55, 56, 57, 97, 98, 99, 100, 101, 102].getD
    (Nat.land n 15) 48

/-- The per-byte loop of `git_oid_in`: consumes hex characters two at a
time, failing when either nibble is invalid, and assembles the byte as
`(hi << 4) | lo`. -/
def git_oid_in_pairs : List Nat → Option (List Nat)
  | [] => some []
  | [_] => none
  | c1 :: c2 :: rest =>
    if hex_to_nibble c1 < 0 ∨ hex_to_nibble c2 < 0 then none
    else
      match git_oid_in_pairs rest with
      | none => none
      | some bs =>
        some ((Nat.lor ((hex_to_nibble c1).toNat <<< 4) (hex_to_nibble c2).toNat) :: bs)

/-- Embeds `git_oid_in`: rejects any string whose length is not 40, then
decodes 20 bytes from the hex pairs. -/
def git_oid_in (s : List Nat) : Option (List Nat) :=
  if s.length ≠ 40 then none else git_oid_in_pairs s

/-- Embeds `git_oid_out`: each byte becomes
`nibble_to_hex(b >> 4), nibble_to_hex(b & 0xf)`. -/
def git_oid_out : List Nat → List Nat
  | [] => []
  | b :: rest => nibble_to_hex (b >>> 4) :: nibble_to_hex (Nat.land b 15) :: git_oid_out rest

/-- A byte is an ASCII hex digit `[0-9a-fA-F]`. -/
def is_hex_byte (c : Nat) : Prop :=
  (48 ≤ c ∧ c ≤ 57) ∨ (97 ≤ c ∧ c ≤ 102) ∨ (65 ≤ c ∧ c ≤ 70)

instance (c : Nat) : Decidable (is_hex_byte c) := by
  unfold is_hex_byte; infer_instance

/-- ASCII lower-casing of a single byte: 'A'-'Z' map down by 32. -/
def lower_byte (c : Nat) : Nat :=
  if 65 ≤ c ∧ c ≤ 90 then c + 32 else c

/-- A byte is a lowercase hex digit `[0-9a-f]`. -/
def is_lower_hex_byte (c : Nat) : Prop :=
  (48 ≤ c ∧ c ≤ 57) ∨ (97 ≤ c ∧ c ≤ 102)

instance (c : Nat) : Decidable (is_lower_hex_byte c) := by
  unfold is_lower_hex_byte; infer_instance

instance {ε α : Type} [DecidableEq ε] [DecidableEq α] : DecidableEq (Except ε α) := fun x y =>
  match x, y with
  | .error e, .error f =>
    if h : e = f then .isTrue (by rw [h]) else .isFalse (by intro hh; cases hh; exact h rfl)
  | .error _, .ok _ => .isFalse (by intro hh; cases hh)
  | .ok _, .error _ => .isFalse (by intro hh; cases hh)
  | .ok a, .ok b =>
    if h : a = b then .isTrue (by rw [h]) else .isFalse (by intro hh; cases hh; exact h rfl)

/-! ## Tree entry parser (C extension `git_tree_entries_c`) -/

/-- Index of the first occurrence of byte `b` in a list, if any. -/
def find_byte (b : Nat) : List Nat → Option Nat
  | [] => none
  | x :: xs => if x = b then some 0 else (find_byte b xs).map (· + 1)

/-- The scanning loops of `git_tree_entries_c`:
`while (p < len && data[p] != b) p++` starting at `pos`; the result is
the first index `≥ pos` holding byte `b`, or `data.length` when none. -/
def scan_pos (data : List Nat) (b : Nat) (pos : Nat) : Nat :=
  match find_byte b (data.drop pos) with
  | some i => pos + i
  | none => data.length

inductive TreeErr where
  | missingSpace
  | missingNul
  | truncatedOid
deriving DecidableEq

structure TreeEntry where
  mode : List Nat
  name : List Nat
  oid : List Nat
deriving DecidableEq

/-- One iteration of `git_tree_entries_c` at position `pos`: scan for the
space, scan for the NUL, apply the source's bounds check
`null_pos + 20 >= len && null_pos + 21 > len` for the 20 OID bytes, and
on success return the entry together with the new position
`null_pos + 21`. -/
def tree_entry_step (data : List Nat) (pos : Nat) : Except TreeErr (TreeEntry × Nat) :=
  let len := data.length
  let space_pos := scan_pos data 32 pos
  if space_pos ≥ len then .error .missingSpace
  else
    let null_pos := scan_pos data 0 (space_pos + 1)
    if null_pos ≥ len then .error .missingNul
    else if null_pos + 20 ≥ len ∧ null_pos + 21 > len then .error .truncatedOid
    else
      .ok ({ mode := (data.drop pos).take (space_pos - pos),
             name := (data.drop (space_pos + 1)).take (null_pos - space_pos - 1),
             oid := (data.drop (null_pos + 1)).take 20 },
           null_pos + 21)

/-- The full set-returning loop of `git_tree_entries_c`, driven by a fuel
argument (each accepted entry advances the position, so
`data.length + 1` fuel always suffices). -/
def tree_entries_go (data : List Nat) : Nat → Nat → Except TreeErr (List TreeEntry)
  | 0, _ => .ok []
  | fuel + 1, pos =>
    if pos < data.length then
      match tree_entry_step data pos with
      | .error e => .error e
      | .ok (entry, pos') =>
        match tree_entries_go data fuel pos' with
        | .error e => .error e
        | .ok es => .ok (entry :: es)
    else .ok []

/-- Embeds `git_tree_entries_c` over the whole content. -/
def git_tree_entries_c (data : List Nat) : Except TreeErr (List TreeEntry) :=
  tree_entries_go data (data.length + 1) 0

/-! ## SHA-1

Modelled from the spec: the object hasher computes "SHA-1 over the
concatenation ..."; the SHA-1 primitive itself is supplied by OpenSSL
(`EVP_sha1`), which is external to the repository, so it is embedded
here from the FIPS 180 description and validated below against the
spec's two concrete blob digests. All words are `Nat` reduced modulo
2^32. -/

/-- Truncate to a 32-bit word. -/
def u32 (n : Nat) : Nat := n % 4294967296

/-- Left-rotation of a 32-bit word by `k` bits. -/
def rotl (k x : Nat) : Nat := u32 (Nat.lor (x <<< k) (x >>> (32 - k)))

/-- Big-endian 4-byte encoding of a 32-bit word. -/
def be32 (n : Nat) : List Nat :=
  [(n >>> 24) % 256, (n >>> 16) % 256, (n >>> 8) % 256, n % 256]

/-- Big-endian 8-byte encoding of a 64-bit length. -/
def be64 (n : Nat) : List Nat :=
  [(n >>> 56) % 256, (n >>> 48) % 256, (n >>> 40) % 256, (n >>> 32) % 256,
   (n >>> 24) % 256, (n >>> 16) % 256, (n >>> 8) % 256, n % 256]

/-- Group bytes into big-endian 32-bit words. -/
def wordsOfBytes : List Nat → List Nat
  | b0 :: b1 :: b2 :: b3 :: rest =>
    (((b0 <<< 24) + (b1 <<< 16)) + ((b2 <<< 8) + b3)) :: wordsOfBytes rest
  | _ => []

/-- SHA-1 padding: a 0x80 byte, zeros to 56 mod 64, and the bit length. -/
def sha1_pad (msg : List Nat) : List Nat :=
  let zeros := (64 - (msg.length + 9) % 64) % 64
  msg ++ 128 :: List.replicate zeros 0 ++ be64 (8 * msg.length)

/-- Message-schedule extension, accumulating the schedule in reverse:
`w[i] = rotl1 (w[i-3] xor w[i-8] xor w[i-14] xor w[i-16])`. -/
def sha1_extend : Nat → List Nat → List Nat
  | 0, wrev => wrev
  | k + 1, wrev =>
    sha1_extend k
      (rotl 1 (Nat.xor (Nat.xor (wrev.getD 2 0) (wrev.getD 7 0))
                       (Nat.xor (wrev.getD 13 0) (wrev.getD 15 0))) :: wrev)

/-- The round function: Ch, Parity, Maj, Parity per 20-round group. -/
def sha1_f (i b c d : Nat) : Nat :=
  if i < 20 then Nat.lor (Nat.land b c) (Nat.land (Nat.xor b 4294967295) d)
  else if i < 40 then Nat.xor (Nat.xor b c) d
  else if i < 60 then Nat.lor (Nat.lor (Nat.land b c) (Nat.land b d)) (Nat.land c d)
  else Nat.xor (Nat.xor b c) d

/-- The round constants per 20-round group. -/
def sha1_k (i : Nat) : Nat :=
  if i < 20 then 1518500249
  else if i < 40 then 1859775393
  else if i < 60 then 2400959708
  else 3395469782

/-- The 80 compression rounds over the message schedule. -/
def sha1_rounds (i : Nat) (ws : List Nat) (st : Nat × Nat × Nat × Nat × Nat) :
    Nat × Nat × Nat × Nat × Nat :=
  match ws with
  | [] => st
  | w :: rest =>
    let (a, b, c, d, e) := st
    sha1_rounds (i + 1) rest
      (u32 (rotl 5 a + sha1_f i b c d + e + sha1_k i + w), a, rotl 30 b, c, d)

/-- Process one 64-byte block. -/
def sha1_block (h : Nat × Nat × Nat × Nat × Nat) (block : List Nat) :
    Nat × Nat × Nat × Nat × Nat :=
  let w := (sha1_extend 64 (wordsOfBytes block).reverse).reverse
  let (h0, h1, h2, h3, h4) := h
  let (a, b, c, d, e) := sha1_rounds 0 w h
  (u32 (h0 + a), u32 (h1 + b), u32 (h2 + c), u32 (h3 + d), u32 (h4 + e))

/-- Process all blocks; the fuel (the padded length) bounds the loop. -/
def sha1_loop : Nat → (Nat × Nat × Nat × Nat × Nat) → List Nat →
    Nat × Nat × Nat × Nat × Nat
  | 0, h, _ => h
  | _ + 1, h, [] => h
  | fuel + 1, h, bytes => sha1_loop fuel (sha1_block h (bytes.take 64)) (bytes.drop 64)

/-- The raw 20-byte SHA-1 digest of a byte string. -/
def sha1 (msg : List Nat) : List Nat :=
  let padded := sha1_pad msg
  let (h0, h1, h2, h3, h4) :=
    sha1_loop padded.length (1732584193, 4023233417, 2562383102, 271733878, 3285377520) padded
  be32 h0 ++ be32 h1 ++ be32 h2 ++ be32 h3 ++ be32 h4

/-! ## Object hasher (`git_object_hash_c` and the SQL `git_object_hash`) -/

/-- Decimal ASCII rendering of a byte length, as `snprintf %d` (and the
SQL `::text` cast) produce it; the fuel is the number itself plus one. -/
def decDigitsAux : Nat → Nat → List Nat
  | 0, _ => []
  | fuel + 1, n =>
    if n < 10 then [48 + n] else decDigitsAux fuel (n / 10) ++ [48 + n % 10]

/-- Decimal ASCII digits of `n` (so `0` renders as `"0"`). -/
def decDigits (n : Nat) : List Nat := decDigitsAux (n + 1) n

/-- ASCII bytes of the four type names, per the `switch` in
`git_object_hash_c` (and the SQL `git_type_name`): 1=commit, 2=tree,
3=blob, 4=tag; anything else has no name. -/
def git_type_name (t : Int) : Option (List Nat) :=
  if t = 1 then some [99, 111, 109, 109, 105, 116]
  else if t = 2 then some [116, 114, 101, 101]
  else if t = 3 then some [98, 108, 111, 98]
  else if t = 4 then some [116, 97, 103]
  else none

inductive HashErr where
  | invalidType
deriving DecidableEq

/-- Embeds `git_object_hash_c(type, content)`: build the header
`"<type-name> <size>"` plus the NUL terminator (the C code hashes
`header_len + 1` bytes, i.e. including the `\0` written by `snprintf`),
then SHA-1 the header followed by the content. Unknown type codes raise
`invalid git object type`. -/
def git_object_hash_c (t : Int) (content : List Nat) : Except HashErr (List Nat) :=
  match git_type_name t with
  | none => .error .invalidType
  | some type_name =>
    .ok (sha1 ((type_name ++ 32 :: decDigits content.length ++ [0]) ++ content))

/-- Embeds the SQL `git_object_hash(obj_type, content)`: the same
digest, `NULL` (via `STRICT` and the `CASE` falling through) for
unknown type codes. -/
def git_object_hash (t : Int) (content : List Nat) : Option (List Nat) :=
  match git_type_name t with
  | none => none
  | some type_name =>
    some (sha1 ((type_name ++ 32 :: decDigits content.length ++ [0]) ++ content))

/-! ## Object store (`odb_postgres.c` and the SQL `git_object_write`) -/

/-- A row of the `objects` table. -/
structure ObjRow where
  repo_id : Nat
  oid : List Nat
  type : Nat
  size : Nat
  content : List Nat
deriving DecidableEq

/-- `SELECT ... FROM objects WHERE repo_id=$1 AND oid=$2`. -/
def objects_select (db : List ObjRow) (repo : Nat) (oid : List Nat) : List ObjRow :=
  db.filter (fun r => r.repo_id == repo && r.oid == oid)

/-- `SELECT ... FROM objects WHERE repo_id=$1 AND
substring(oid from 1 for $2) = $3` with a `byte_len`-byte prefix. -/
def objects_select_pfx (db : List ObjRow) (repo : Nat) (pfx : List Nat) (byte_len : Nat) :
    List ObjRow :=
  db.filter (fun r => r.repo_id == repo && r.oid.take byte_len == pfx.take byte_len)

/-- `INSERT INTO objects ... ON CONFLICT (repo_id, oid) DO NOTHING`. -/
def objects_insert (db : List ObjRow) (row : ObjRow) : List ObjRow :=
  if db.any (fun r => r.repo_id == row.repo_id && r.oid == row.oid) then db
  else db ++ [row]

inductive OdbErr where
  | notFound
  | ambiguous
deriving DecidableEq

/-- Embeds `pg_odb_read`: exact lookup returning `(type, size, content)`
(the returned length is the `size` column). -/
def pg_odb_read (db : List ObjRow) (repo : Nat) (oid : List Nat) :
    Except OdbErr (Nat × Nat × List Nat) :=
  match objects_select db repo oid with
  | [] => .error .notFound
  | r :: _ => .ok (r.type, r.size, r.content)

/-- Embeds `pg_odb_read_prefix`. `out0` models the caller's `out_oid`
buffer, which the C function leaves untouched on the full-length
(`prefix_len = 40`) path, where it short-circuits through
`pg_odb_read`; otherwise it compares `byte_len = (prefix_len + 1) / 2`
leading OID bytes and fails on zero rows (`GIT_ENOTFOUND`) or more than
one row (`GIT_EAMBIGUOUS`). -/
def pg_odb_read_pfx (out0 : List Nat) (db : List ObjRow) (repo : Nat)
    (short : List Nat) (prefix_len : Nat) :
    Except OdbErr (List Nat × Nat × Nat × List Nat) :=
  if prefix_len = 40 then
    match pg_odb_read db repo short with
    | .error e => .error e
    | .ok (t, s, c) => .ok (out0, t, s, c)
  else
    let byte_len := (prefix_len + 1) / 2
    match objects_select_pfx db repo short byte_len with
    | [] => .error .notFound
    | [r] => .ok (r.oid, r.type, r.size, r.content)
    | _ => .error .ambiguous

/-- Embeds `pg_odb_write`: the insert-or-ignore statement; the C
function only fails on a driver error, which is outside this model. -/
def pg_odb_write (db : List ObjRow) (repo : Nat) (oid : List Nat) (data : List Nat)
    (t : Nat) : List ObjRow :=
  objects_insert db ⟨repo, oid, t, data.length, data⟩

/-- The outcome of one driver round-trip: either the result rows or a
database-level failure (`PQresultStatus != PGRES_TUPLES_OK`). -/
inductive QueryOutcome (α : Type) where
  | ok (rows : α)
  | failed
deriving DecidableEq

/-- Embeds `pg_odb_exists`: given the outcome of the
`SELECT 1 FROM objects WHERE repo_id=$1 AND oid=$2` round-trip it
returns `0` when the query failed, otherwise `1` iff a row came back. -/
def pg_odb_exists (qres : QueryOutcome (List ObjRow)) : Nat :=
  match qres with
  | .failed => 0
  | .ok rows => if rows.length > 0 then 1 else 0

/-- Embeds the SQL `git_object_write(repo, type, content)`: hash, insert
with `ON CONFLICT DO NOTHING`, return the OID. A `NULL` hash (unknown
type) would abort the insert, leaving the table unchanged. -/
def git_object_write (db : List ObjRow) (repo : Nat) (t : Int) (content : List Nat) :
    Option (List Nat) × List ObjRow :=
  match git_object_hash t content with
  | none => (none, db)
  | some oid => (some oid, objects_insert db ⟨repo, oid, t.toNat, content.length, content⟩)

/-! ## Ref store (`refdb_postgres.c`) -/

/-- A row of the `refs` table: `oid` and `symbolic` are both nullable
columns; the schema's `CHECK ((oid IS NOT NULL) != (symbolic IS NOT
NULL))` is the predicate `refs_check` below. -/
structure RefRow where
  repo_id : Nat
  name : String
  oid : Option (List Nat)
  symbolic : Option String
deriving DecidableEq

/-- The schema's XOR constraint on a `refs` row:
`(oid IS NOT NULL) != (symbolic IS NOT NULL)` (from the `CREATE TABLE
refs` statement). -/
def refs_check (r : RefRow) : Bool := r.oid.isSome != r.symbolic.isSome

/-- `SELECT ... FROM refs WHERE repo_id = $1 AND name = $2`. -/
def refs_select (db : List RefRow) (repo : Nat) (name : String) : List RefRow :=
  db.filter (fun r => r.repo_id == repo && r.name == name)

/-- `INSERT INTO refs (repo_id, name, oid, symbolic) VALUES ($1, $2, $3,
NULL) ON CONFLICT (repo_id, name) DO UPDATE SET oid = EXCLUDED.oid,
symbolic = NULL` — the direct-ref upsert issued by `pg_refdb_write` and
by `pg_refdb_unlock` in the write disposition. -/
def refs_upsert_direct (db : List RefRow) (repo : Nat) (name : String)
    (oid : List Nat) : List RefRow :=
  if db.any (fun r => r.repo_id == repo && r.name == name) then
    db.map (fun r =>
      if r.repo_id == repo && r.name == name then
        { r with oid := some oid, symbolic := none }
      else r)
  else db ++ [⟨repo, name, some oid, none⟩]

/-- `INSERT INTO refs (repo_id, name, oid, symbolic) VALUES ($1, $2,
NULL, $3) ON CONFLICT (repo_id, name) DO UPDATE SET oid = NULL,
symbolic = EXCLUDED.symbolic` — the symbolic-ref upsert issued by
`pg_refdb_write` and by `pg_refdb_unlock` in the write disposition. -/
def refs_upsert_symbolic (db : List RefRow) (repo : Nat) (name : String)
    (target : String) : List RefRow :=
  if db.any (fun r => r.repo_id == repo && r.name == name) then
    db.map (fun r =>
      if r.repo_id == repo && r.name == name then
        { r with oid := none, symbolic := some target }
      else r)
  else db ++ [⟨repo, name, none, some target⟩]

/-- `DELETE FROM refs WHERE repo_id = $1 AND name = $2` — issued by
`pg_refdb_del`, by forced `pg_refdb_rename`, and by `pg_refdb_unlock`
in the delete disposition. -/
def refs_delete (db : List RefRow) (repo : Nat) (name : String) : List RefRow :=
  db.filter (fun r => !(r.repo_id == repo && r.name == name))

/-- `UPDATE refs SET name = $1 WHERE repo_id = $2 AND name = $3` — the
row rename issued by `pg_refdb_rename`. -/
def refs_rename (db : List RefRow) (repo : Nat) (old_name new_name : String) :
    List RefRow :=
  db.map (fun r =>
    if r.repo_id == repo && r.name == old_name then { r with name := new_name } else r)

/-- The value carried by the `git_reference` argument of
`pg_refdb_write`: either a direct target OID or a symbolic target. -/
inductive RefTarget where
  | direct (oid : List Nat)
  | symbolic (target : String)
deriving DecidableEq

/-- The integer return codes of `pg_refdb_write`: `0`, `-1`
(`generic`), `GIT_ENOTFOUND` and `GIT_EEXISTS`. -/
inductive WriteResult where
  | ok
  | generic
  | notFound
  | eexists
deriving DecidableEq

/-- The upsert half of `pg_refdb_write` (and of `pg_refdb_unlock` in
the write disposition): direct refs clear `symbolic`, symbolic refs
clear `oid`. -/
def refdb_upsert (db : List RefRow) (repo : Nat) (name : String) (tgt : RefTarget) :
    List RefRow :=
  match tgt with
  | .direct oid => refs_upsert_direct db repo name oid
  | .symbolic t => refs_upsert_symbolic db repo name t

/-- The `old_target` half of the compare-and-swap check in
`pg_refdb_write`, reached once the `old` OID check has passed: a direct
row (`symbolic` NULL) fails with `-1`, a differing target fails with
`GIT_EEXISTS`. -/
def refdb_write_target_check (db : List RefRow) (repo : Nat) (name : String)
    (tgt : RefTarget) (old_target : Option String) (r : RefRow) :
    WriteResult × List RefRow :=
  match old_target with
  | none => (.ok, refdb_upsert db repo name tgt)
  | some t =>
    match r.symbolic with
    | none => (.generic, db)
    | some cur =>
      if cur ≠ t then (.eexists, db)
      else (.ok, refdb_upsert db repo name tgt)

/-- Embeds `pg_refdb_write` (without the reflog side table): `BEGIN`,
the compare-and-swap check under `SELECT ... FOR UPDATE` when `force`
is unset, the upsert, `COMMIT`; every failure path issues `ROLLBACK`,
modelled by returning the original table. -/
def pg_refdb_write (db : List RefRow) (repo : Nat) (name : String) (tgt : RefTarget)
    (force : Bool) (old : Option (List Nat)) (old_target : Option String) :
    WriteResult × List RefRow :=
  if force then (.ok, refdb_upsert db repo name tgt)
  else
    let sel := refs_select db repo name
    if old.isSome || old_target.isSome then
      match sel with
      | [] => (.notFound, db)
      | r :: _ =>
        match old with
        | none => refdb_write_target_check db repo name tgt old_target r
        | some o =>
          match r.oid with
          | none => (.generic, db)
          | some cur =>
            if cur ≠ o then (.eexists, db)
            else refdb_write_target_check db repo name tgt old_target r
    else
      if sel.length > 0 then (.eexists, db)
      else (.ok, refdb_upsert db repo name tgt)

/-! ## Remote-helper `list` command (`cmd_list`) -/

/-- A row of the `SELECT name, encode(oid, 'hex'), symbolic FROM refs
... ORDER BY name` query driving `cmd_list`: the OID column arrives
hex-encoded. -/
structure ListRow where
  name : String
  oid_hex : Option String
  symbolic : Option String
deriving DecidableEq

/-- The C truthiness test `!PQgetisnull(...) && strlen(...) > 0`. -/
def col_present (s : Option String) : Bool :=
  match s with
  | some v => v.length > 0
  | none => false

/-- One iteration of the row loop in `cmd_list`, carried over the
accumulator `(head_oid, head_symbolic, emitted lines)`: a `HEAD` row
records its symbolic target or OID and emits nothing; any other row
emits `"<hex-oid> <name>"` when its OID column is present. -/
def cmd_list_fold (acc : Option String × Option String × List String) (r : ListRow) :
    Option String × Option String × List String :=
  let (ho, hs, lines) := acc
  if r.name = "HEAD" then
    if col_present r.symbolic then (ho, r.symbolic, lines)
    else if col_present r.oid_hex then (r.oid_hex, hs, lines)
    else (ho, hs, lines)
  else
    if col_present r.oid_hex then
      (ho, hs, lines ++ [r.oid_hex.getD "" ++ " " ++ r.name])
    else (ho, hs, lines)

/-- The resolution scan in `cmd_list`: the first row whose name equals
the symbolic target of `HEAD` and whose OID column is non-null. -/
def resolve_head (rows : List ListRow) (target : String) : Option String :=
  match rows.find? (fun r => r.name == target && r.oid_hex.isSome) with
  | some r => r.oid_hex
  | none => none

/-- Embeds `cmd_list`: the per-ref lines, then the `HEAD` line (either
`"@<target> HEAD"` when `HEAD` is symbolic and its target resolves to a
row with an OID, or `"<hex-oid> HEAD"` when `HEAD` is direct), then the
terminating blank line. -/
def cmd_list (rows : List ListRow) : List String :=
  let (ho, hs, lines) := rows.foldl cmd_list_fold (none, none, [])
  let headLines :=
    match hs with
    | some target =>
      let ho2 := match resolve_head rows target with
        | some o => some o
        | none => ho
      match ho2 with
      | some _ => ["@" ++ target ++ " HEAD"]
      | none => []
    | none =>
      match ho with
      | some o => [o ++ " HEAD"]
      | none => []
  lines ++ headLines ++ [""]

/-- The first `refs` row named `HEAD` in the result set (rows are
keyed by name, so there is at most one). -/
def head_row (rows : List ListRow) : Option ListRow :=
  rows.find? (fun r => r.name == "HEAD")

/-- The symbolic target recorded for `HEAD` by the row loop of
`cmd_list`. -/
def head_sym (rows : List ListRow) : Option String :=
  (head_row rows).bind (fun r => r.symbolic)

/-- The direct OID recorded for `HEAD` by the row loop of `cmd_list`
(only when the `HEAD` row is not symbolic). -/
def head_direct (rows : List ListRow) : Option String :=
  match head_row rows with
  | some hr =>
    match hr.symbolic with
    | some _ => none
    | none => hr.oid_hex
  | none => none

/-- The per-ref lines of the `cmd_list` loop: one `"<hex-oid> <name>"`
line per row that is not `HEAD` and has a present OID column. -/
def direct_lines (rows : List ListRow) : List String :=
  (rows.filter (fun r => r.name != "HEAD" && col_present r.oid_hex)).map
    (fun r => r.oid_hex.getD "" ++ " " ++ r.name)

/-- The claim's description of the per-ref lines: one line for each
direct (OID-carrying) ref other than `HEAD`. -/
def direct_lines_spec (rows : List ListRow) : List String :=
  (rows.filter (fun r => r.name != "HEAD" && r.oid_hex.isSome)).map
    (fun r => r.oid_hex.getD "" ++ " " ++ r.name)

/-- The claim's description of the `HEAD` line: `"@<target> HEAD"` when
`HEAD` is symbolic and its target exists as a direct ref,
`"<hex-oid> HEAD"` when `HEAD` is direct, nothing otherwise. -/
def head_lines_spec (rows : List ListRow) : List String :=
  match head_row rows with
  | none => []
  | some hr =>
    match hr.symbolic with
    | some t =>
      if rows.any (fun r => r.name == t && r.oid_hex.isSome) then ["@" ++ t ++ " HEAD"]
      else []
    | none =>
      match hr.oid_hex with
      | some o => [o ++ " HEAD"]
      | none => []

/-- Well-formedness of a `cmd_list` result row, as the schema
guarantees it: either a direct ref (a 40-character, hence non-empty,
hex OID and no symbolic target) or a symbolic ref (a non-empty target
and no OID). -/
def list_row_wf (r : ListRow) : Prop :=
  (∃ h, r.oid_hex = some h ∧ h ≠ "" ∧ r.symbolic = none) ∨
  (∃ t, r.symbolic = some t ∧ t ≠ "" ∧ r.oid_hex = none)

/-- The supplied `old` OID expectation holds of row `r`: it is absent,
or it matches the row's `oid` column. Used to state the CAS theorem. -/
def old_oid_passes (old : Option (List Nat)) (r : RefRow) : Prop :=
  old = none ∨ ∃ o, old = some o ∧ r.oid = some o

/-- The supplied `old_target` expectation holds of row `r`: it is
absent, or it matches the row's `symbolic` column. -/
def old_target_passes (old_target : Option String) (r : RefRow) : Prop :=
  old_target = none ∨ ∃ t, old_target = some t ∧ r.symbolic = some t

/-! # Helper lemmas -/

theorem hex_to_nibble_neg_iff (c : Nat) : hex_to_nibble c < 0 ↔ ¬ is_hex_byte c := by
  unfold hex_to_nibble is_hex_byte
  split_ifs with h1 h2 h3 <;> omega

theorem hex_to_nibble_lower (c : Nat) (h : ¬ hex_to_nibble c < 0) :
    hex_to_nibble (lower_byte c) = hex_to_nibble c := by
  unfold hex_to_nibble lower_byte at *
  split_ifs at * <;> omega

theorem git_oid_in_pairs_bad (s : List Nat) (b : Nat) (hb : b ∈ s)
    (hbad : ¬ is_hex_byte b) : git_oid_in_pairs s = none := by
  induction s using git_oid_in_pairs.induct with
  | case1 => cases hb
  | case2 c => rfl
  | case3 c1 c2 rest hneg => unfold git_oid_in_pairs; rw [if_pos hneg]
  | case4 c1 c2 rest hpos hnone ih =>
    unfold git_oid_in_pairs
    rw [if_neg hpos, hnone]
  | case5 c1 c2 rest hpos bs hsome ih =>
    rcases List.mem_cons.mp hb with h | h
    · exact absurd (Or.inl ((hex_to_nibble_neg_iff b).mpr hbad)) (h ▸ hpos)
    · rcases List.mem_cons.mp h with h' | h'
      · exact absurd (Or.inr ((hex_to_nibble_neg_iff b).mpr hbad)) (h' ▸ hpos)
      · exact absurd hsome (by rw [ih h']; exact fun hh => by cases hh)

theorem git_oid_in_pairs_lower (s : List Nat) (o : List Nat)
    (h : git_oid_in_pairs s = some o) :
    git_oid_in_pairs (s.map lower_byte) = some o := by
  induction s using git_oid_in_pairs.induct generalizing o with
  | case1 => simpa using h
  | case2 c => simp [git_oid_in_pairs] at h
  | case3 c1 c2 rest hneg =>
    unfold git_oid_in_pairs at h
    rw [if_pos hneg] at h
    cases h
  | case4 c1 c2 rest hpos hnone ih =>
    unfold git_oid_in_pairs at h
    rw [if_neg hpos, hnone] at h
    cases h
  | case5 c1 c2 rest hpos bs hsome ih =>
    unfold git_oid_in_pairs at h
    rw [if_neg hpos, hsome] at h
    push_neg at hpos
    simp only [List.map_cons]
    unfold git_oid_in_pairs
    rw [hex_to_nibble_lower c1 (by omega), hex_to_nibble_lower c2 (by omega),
      if_neg (by omega : ¬(hex_to_nibble c1 < 0 ∨ hex_to_nibble c2 < 0)), ih bs hsome]
    exact h

theorem nibble_to_hex_lower (n : Nat) : is_lower_hex_byte (nibble_to_hex n) := by
  have h : Nat.land n 15 < 16 := Nat.lt_succ_of_le Nat.and_le_right
  unfold nibble_to_hex
  interval_cases hh : Nat.land n 15 <;> decide

theorem git_oid_out_lower (oid : List Nat) (c : Nat) (hc : c ∈ git_oid_out oid) :
    is_lower_hex_byte c := by
  induction oid with
  | nil => cases hc
  | cons b rest ih =>
    unfold git_oid_out at hc
    rcases List.mem_cons.mp hc with h | h
    · subst h; exact nibble_to_hex_lower _
    · rcases List.mem_cons.mp h with h' | h'
      · subst h'; exact nibble_to_hex_lower _
      · exact ih h'

theorem hex_nibble_round : ∀ n < 16, hex_to_nibble (nibble_to_hex n) = n := by decide

set_option maxRecDepth 4000 in
theorem byte_recompose : ∀ b < 256, Nat.lor ((b >>> 4) <<< 4) (Nat.land b 15) = b := by
  decide

theorem git_oid_out_length (oid : List Nat) : (git_oid_out oid).length = 2 * oid.length := by
  induction oid with
  | nil => rfl
  | cons b rest ih => unfold git_oid_out; simp [ih]; omega

theorem git_oid_in_pairs_round (oid : List Nat) (hb : ∀ b ∈ oid, b < 256) :
    git_oid_in_pairs (git_oid_out oid) = some oid := by
  induction oid with
  | nil => rfl
  | cons b rest ih =>
    have hb0 : b < 256 := hb b (List.mem_cons_self _ _)
    have hhi : b >>> 4 < 16 := by
      rw [Nat.shiftRight_eq_div_pow]
      omega
    have hlo : Nat.land b 15 < 16 := Nat.lt_succ_of_le Nat.and_le_right
    unfold git_oid_out git_oid_in_pairs
    rw [hex_nibble_round _ hhi, hex_nibble_round _ hlo]
    rw [if_neg (by omega)]
    rw [ih (fun x hx => hb x (List.mem_cons_of_mem _ hx))]
    simp only [Int.toNat_ofNat]
    rw [byte_recompose b hb0]

theorem sha1_length (msg : List Nat) : (sha1 msg).length = 20 := by
  unfold sha1
  obtain ⟨h0, h1, h2, h3, h4⟩ :=
    sha1_loop (sha1_pad msg).length (1732584193, 4023233417, 2562383102, 271733878, 3285377520)
      (sha1_pad msg)
  simp [be32]

theorem objects_insert_idem (db : List ObjRow) (row : ObjRow) :
    objects_insert (objects_insert db row) row = objects_insert db row := by
  unfold objects_insert
  split_ifs with h h2
  · rfl
  · rfl
  · exfalso
    apply h2
    rw [List.any_append]
    simp

theorem refs_upsert_direct_check (db : List RefRow) (repo : Nat) (name : String)
    (oid : List Nat) (hdb : ∀ r ∈ db, refs_check r = true) :
    ∀ r ∈ refs_upsert_direct db repo name oid, refs_check r = true := by
  intro r hr
  unfold refs_upsert_direct at hr
  split_ifs at hr with h
  · obtain ⟨r0, hr0, hfr⟩ := List.mem_map.mp hr
    by_cases hk : (r0.repo_id == repo && r0.name == name) = true
    · rw [if_pos hk] at hfr
      rw [← hfr]
      rfl
    · rw [if_neg hk] at hfr
      rw [← hfr]
      exact hdb r0 hr0
  · rcases List.mem_append.mp hr with h' | h'
    · exact hdb r h'
    · rw [List.mem_singleton.mp h']
      rfl

theorem refs_upsert_symbolic_check (db : List RefRow) (repo : Nat) (name : String)
    (target : String) (hdb : ∀ r ∈ db, refs_check r = true) :
    ∀ r ∈ refs_upsert_symbolic db repo name target, refs_check r = true := by
  intro r hr
  unfold refs_upsert_symbolic at hr
  split_ifs at hr with h
  · obtain ⟨r0, hr0, hfr⟩ := List.mem_map.mp hr
    by_cases hk : (r0.repo_id == repo && r0.name == name) = true
    · rw [if_pos hk] at hfr
      rw [← hfr]
      rfl
    · rw [if_neg hk] at hfr
      rw [← hfr]
      exact hdb r0 hr0
  · rcases List.mem_append.mp hr with h' | h'
    · exact hdb r h'
    · rw [List.mem_singleton.mp h']
      rfl

theorem refs_rename_check (db : List RefRow) (repo : Nat) (old_name new_name : String)
    (hdb : ∀ r ∈ db, refs_check r = true) :
    ∀ r ∈ refs_rename db repo old_name new_name, refs_check r = true := by
  intro r hr
  obtain ⟨r0, hr0, hfr⟩ := List.mem_map.mp hr
  by_cases hk : (r0.repo_id == repo && r0.name == old_name) = true
  · rw [if_pos hk] at hfr
    rw [← hfr]
    have := hdb r0 hr0
    unfold refs_check at *
    exact this
  · rw [if_neg hk] at hfr
    rw [← hfr]
    exact hdb r0 hr0

theorem refs_delete_check (db : List RefRow) (repo : Nat) (name : String)
    (hdb : ∀ r ∈ db, refs_check r = true) :
    ∀ r ∈ refs_delete db repo name, refs_check r = true := by
  intro r hr
  exact hdb r (List.mem_of_mem_filter hr)

theorem refdb_upsert_check (db : List RefRow) (repo : Nat) (name : String)
    (tgt : RefTarget) (hdb : ∀ r ∈ db, refs_check r = true) :
    ∀ r ∈ refdb_upsert db repo name tgt, refs_check r = true := by
  cases tgt with
  | direct oid => exact refs_upsert_direct_check db repo name oid hdb
  | symbolic t => exact refs_upsert_symbolic_check db repo name t hdb

theorem refdb_write_target_check_snd (db : List RefRow) (repo : Nat) (name : String)
    (tgt : RefTarget) (old_target : Option String) (r : RefRow) :
    (refdb_write_target_check db repo name tgt old_target r).2 = db ∨
    (refdb_write_target_check db repo name tgt old_target r).2 =
      refdb_upsert db repo name tgt := by
  unfold refdb_write_target_check
  cases old_target with
  | none => right; rfl
  | some t =>
    dsimp only
    cases r.symbolic with
    | none => left; rfl
    | some cur =>
      dsimp only
      split_ifs
      · left; rfl
      · right; rfl

theorem pg_refdb_write_snd (db : List RefRow) (repo : Nat) (name : String)
    (tgt : RefTarget) (force : Bool) (old : Option (List Nat))
    (old_target : Option String) :
    (pg_refdb_write db repo name tgt force old old_target).2 = db ∨
    (pg_refdb_write db repo name tgt force old old_target).2 =
      refdb_upsert db repo name tgt := by
  unfold pg_refdb_write
  split_ifs with hf hgiven
  · right; rfl
  · cases hs : refs_select db repo name with
    | nil => left; rfl
    | cons r rest =>
      dsimp only
      cases old with
      | none => exact refdb_write_target_check_snd db repo name tgt old_target r
      | some o =>
        dsimp only
        cases r.oid with
        | none => left; rfl
        | some cur =>
          dsimp only
          split_ifs
          · left; rfl
          · exact refdb_write_target_check_snd db repo name tgt old_target r
  · dsimp only
    split_ifs
    · left; rfl
    · right; rfl

theorem refs_upsert_direct_fields (db : List RefRow) (repo : Nat) (name : String)
    (oid : List Nat) :
    ∀ r ∈ refs_upsert_direct db repo name oid, r.repo_id = repo → r.name = name →
      r.oid = some oid ∧ r.symbolic = none := by
  intro r hr hrid hrname
  unfold refs_upsert_direct at hr
  split_ifs at hr with h
  · obtain ⟨r0, hr0, hfr⟩ := List.mem_map.mp hr
    by_cases hk : (r0.repo_id == repo && r0.name == name) = true
    · rw [if_pos hk] at hfr
      rw [← hfr]
      exact ⟨rfl, rfl⟩
    · rw [if_neg hk] at hfr
      exfalso
      apply hk
      subst hfr
      simp only [Bool.and_eq_true, beq_iff_eq]
      exact ⟨hrid, hrname⟩
  · rcases List.mem_append.mp hr with h' | h'
    · exfalso
      apply h
      rw [List.any_eq_true]
      exact ⟨r, h', by simp only [Bool.and_eq_true, beq_iff_eq]; exact ⟨hrid, hrname⟩⟩
    · rw [List.mem_singleton.mp h']
      exact ⟨rfl, rfl⟩

theorem refs_upsert_symbolic_fields (db : List RefRow) (repo : Nat) (name : String)
    (target : String) :
    ∀ r ∈ refs_upsert_symbolic db repo name target, r.repo_id = repo → r.name = name →
      r.oid = none ∧ r.symbolic = some target := by
  intro r hr hrid hrname
  unfold refs_upsert_symbolic at hr
  split_ifs at hr with h
  · obtain ⟨r0, hr0, hfr⟩ := List.mem_map.mp hr
    by_cases hk : (r0.repo_id == repo && r0.name == name) = true
    · rw [if_pos hk] at hfr
      rw [← hfr]
      exact ⟨rfl, rfl⟩
    · rw [if_neg hk] at hfr
      exfalso
      apply hk
      subst hfr
      simp only [Bool.and_eq_true, beq_iff_eq]
      exact ⟨hrid, hrname⟩
  · rcases List.mem_append.mp hr with h' | h'
    · exfalso
      apply h
      rw [List.any_eq_true]
      exact ⟨r, h', by simp only [Bool.and_eq_true, beq_iff_eq]; exact ⟨hrid, hrname⟩⟩
    · rw [List.mem_singleton.mp h']
      exact ⟨rfl, rfl⟩

theorem tc_none (db : List RefRow) (repo : Nat) (name : String) (tgt : RefTarget)
    (r : RefRow) :
    refdb_write_target_check db repo name tgt none r = (.ok, refdb_upsert db repo name tgt)
    := rfl

theorem tc_sym_none (db : List RefRow) (repo : Nat) (name : String) (tgt : RefTarget)
    (t : String) (r : RefRow) (hsym : r.symbolic = none) :
    refdb_write_target_check db repo name tgt (some t) r = (.generic, db) := by
  unfold refdb_write_target_check
  dsimp only
  rw [hsym]

theorem tc_mismatch (db : List RefRow) (repo : Nat) (name : String) (tgt : RefTarget)
    (t cur : String) (r : RefRow) (hsym : r.symbolic = some cur) (hne : cur ≠ t) :
    refdb_write_target_check db repo name tgt (some t) r = (.eexists, db) := by
  unfold refdb_write_target_check
  dsimp only
  rw [hsym]
  dsimp only
  rw [if_pos hne]

theorem tc_pass (db : List RefRow) (repo : Nat) (name : String) (tgt : RefTarget)
    (old_target : Option String) (r : RefRow) (hpass : old_target_passes old_target r) :
    refdb_write_target_check db repo name tgt old_target r =
      (.ok, refdb_upsert db repo name tgt) := by
  rcases hpass with hnone | ⟨t, ht, hsym⟩
  · subst hnone
    rfl
  · subst ht
    unfold refdb_write_target_check
    dsimp only
    rw [hsym]
    dsimp only
    rw [if_neg (fun h => h rfl)]

theorem refdb_write_target_check_cases (db : List RefRow) (repo : Nat) (name : String)
    (tgt : RefTarget) (old_target : Option String) (r : RefRow) :
    refdb_write_target_check db repo name tgt old_target r =
      (.ok, refdb_upsert db repo name tgt)
    ∨ ((refdb_write_target_check db repo name tgt old_target r).1 ≠ .ok ∧
       (refdb_write_target_check db repo name tgt old_target r).2 = db) := by
  unfold refdb_write_target_check
  cases old_target with
  | none => left; rfl
  | some t =>
    dsimp only
    cases r.symbolic with
    | none => right; exact ⟨(fun h => nomatch h), rfl⟩
    | some cur =>
      dsimp only
      split_ifs
      · right; exact ⟨(fun h => nomatch h), rfl⟩
      · left; rfl

theorem pg_refdb_write_reduce (db : List RefRow) (repo : Nat) (name : String)
    (tgt : RefTarget) (old : Option (List Nat)) (old_target : Option String)
    (r : RefRow) (rest : List RefRow)
    (hsel : refs_select db repo name = r :: rest)
    (hgiven : (old.isSome || old_target.isSome) = true)
    (hpass : old_oid_passes old r) :
    pg_refdb_write db repo name tgt false old old_target =
      refdb_write_target_check db repo name tgt old_target r := by
  unfold pg_refdb_write
  rw [if_neg Bool.false_ne_true]
  dsimp only
  rw [hsel, if_pos hgiven]
  dsimp only
  rcases hpass with hnone | ⟨o, ho, hro⟩
  · subst hnone
    rfl
  · subst ho
    dsimp only
    rw [hro]
    dsimp only
    rw [if_neg (fun h => h rfl)]

theorem pg_refdb_write_cases (db : List RefRow) (repo : Nat) (name : String)
    (tgt : RefTarget) (old : Option (List Nat)) (old_target : Option String) :
    pg_refdb_write db repo name tgt false old old_target =
      (.ok, refdb_upsert db repo name tgt)
    ∨ ((pg_refdb_write db repo name tgt false old old_target).1 ≠ .ok ∧
       (pg_refdb_write db repo name tgt false old old_target).2 = db) := by
  unfold pg_refdb_write
  rw [if_neg Bool.false_ne_true]
  dsimp only
  split_ifs with hgiven
  · cases hs : refs_select db repo name with
    | nil => right; exact ⟨(fun h => nomatch h), rfl⟩
    | cons r rest =>
      dsimp only
      cases old with
      | none => exact refdb_write_target_check_cases db repo name tgt old_target r
      | some o =>
        dsimp only
        cases r.oid with
        | none => right; exact ⟨(fun h => nomatch h), rfl⟩
        | some cur =>
          dsimp only
          split_ifs
          · right; exact ⟨(fun h => nomatch h), rfl⟩
          · exact refdb_write_target_check_cases db repo name tgt old_target r
  · right; exact ⟨(fun h => nomatch h), rfl⟩
  · left; rfl

theorem string_len_pos (s : String) (h : s ≠ "") : 0 < s.length := by
  cases s with
  | mk data =>
    cases data with
    | nil => exact absurd rfl h
    | cons c cs => simp [String.length]

theorem direct_lines_cons_pos (r : ListRow) (rest : List ListRow)
    (h : (r.name != "HEAD" && col_present r.oid_hex) = true) :
    direct_lines (r :: rest) =
      (r.oid_hex.getD "" ++ " " ++ r.name) :: direct_lines rest := by
  unfold direct_lines
  simp only [List.filter_cons]
  rw [if_pos h, List.map_cons]

theorem direct_lines_cons_neg (r : ListRow) (rest : List ListRow)
    (h : ¬(r.name != "HEAD" && col_present r.oid_hex) = true) :
    direct_lines (r :: rest) = direct_lines rest := by
  unfold direct_lines
  simp only [List.filter_cons]
  rw [if_neg h]

theorem cmd_list_fold_no_head (rows : List ListRow)
    (hno : ∀ r ∈ rows, r.name ≠ "HEAD") :
    ∀ acc : Option String × Option String × List String,
      rows.foldl cmd_list_fold acc =
        (acc.1, acc.2.1, acc.2.2 ++ direct_lines rows) := by
  induction rows with
  | nil =>
    intro acc
    simp [direct_lines]
  | cons r rest ih =>
    intro acc
    obtain ⟨ho, hs, lines⟩ := acc
    have hr : r.name ≠ "HEAD" := hno r (List.mem_cons_self _ _)
    rw [List.foldl_cons]
    by_cases hp : col_present r.oid_hex = true
    · have hstep : cmd_list_fold (ho, hs, lines) r =
          (ho, hs, lines ++ [r.oid_hex.getD "" ++ " " ++ r.name]) := by
        unfold cmd_list_fold
        dsimp only
        rw [if_neg hr, if_pos hp]
      rw [hstep, ih (fun x hx => hno x (List.mem_cons_of_mem _ hx)),
        direct_lines_cons_pos r rest (by simp [hr, hp])]
      simp
    · have hstep : cmd_list_fold (ho, hs, lines) r = (ho, hs, lines) := by
        unfold cmd_list_fold
        dsimp only
        rw [if_neg hr, if_neg hp]
      rw [hstep, ih (fun x hx => hno x (List.mem_cons_of_mem _ hx)),
        direct_lines_cons_neg r rest (by simp [hp])]

theorem cmd_list_fold_spec (rows : List ListRow)
    (hwf : ∀ r ∈ rows, list_row_wf r)
    (hnames : rows.Pairwise (fun a b => a.name ≠ b.name)) :
    ∀ lines0 : List String,
      rows.foldl cmd_list_fold (none, none, lines0) =
        (head_direct rows, head_sym rows, lines0 ++ direct_lines rows) := by
  induction rows with
  | nil =>
    intro lines0
    simp [head_direct, head_sym, head_row, direct_lines]
  | cons r rest ih =>
    intro lines0
    rw [List.foldl_cons]
    by_cases hname : r.name = "HEAD"
    · have hnohead : ∀ x ∈ rest, x.name ≠ "HEAD" := by
        intro x hx hc
        exact (List.pairwise_cons.mp hnames).1 x hx (hname.trans hc.symm)
      have hhr : head_row (r :: rest) = some r := by
        unfold head_row
        rw [List.find?_cons_of_pos]
        simp [hname]
      rcases hwf r (List.mem_cons_self _ _) with ⟨h, hoid, hne, hsym⟩ | ⟨t, hsymt, htne, hoid⟩
      · have hstep : cmd_list_fold (none, none, lines0) r = (r.oid_hex, none, lines0) := by
          unfold cmd_list_fold
          dsimp only
          rw [if_pos hname, hsym]
          rw [if_neg (by simp [col_present]), if_pos (by
            rw [hoid]
            simp [col_present]
            exact string_len_pos h hne)]
        rw [hstep, cmd_list_fold_no_head rest hnohead (r.oid_hex, none, lines0),
          direct_lines_cons_neg r rest (by simp [hname])]
        unfold head_direct head_sym
        rw [hhr]
        dsimp only
        simp [hsym]
      · have hstep : cmd_list_fold (none, none, lines0) r = (none, r.symbolic, lines0) := by
          unfold cmd_list_fold
          dsimp only
          rw [if_pos hname, hsymt]
          rw [if_pos (by simp [col_present]; exact string_len_pos t htne)]
        rw [hstep, cmd_list_fold_no_head rest hnohead (none, r.symbolic, lines0),
          direct_lines_cons_neg r rest (by simp [hname])]
        unfold head_direct head_sym
        rw [hhr]
        dsimp only
        simp [hsymt]
    · have hhr : head_row (r :: rest) = head_row rest := by
        unfold head_row
        rw [List.find?_cons_of_neg]
        simp [hname]
      have hwfr : ∀ x ∈ rest, list_row_wf x := fun x hx => hwf x (List.mem_cons_of_mem _ hx)
      have hnr : rest.Pairwise (fun a b => a.name ≠ b.name) :=
        (List.pairwise_cons.mp hnames).2
      by_cases hp : col_present r.oid_hex = true
      · have hstep : cmd_list_fold (none, none, lines0) r =
            (none, none, lines0 ++ [r.oid_hex.getD "" ++ " " ++ r.name]) := by
          unfold cmd_list_fold
          dsimp only
          rw [if_neg hname, if_pos hp]
        rw [hstep, ih hwfr hnr (lines0 ++ [r.oid_hex.getD "" ++ " " ++ r.name]),
          direct_lines_cons_pos r rest (by simp [hname, hp])]
        unfold head_direct head_sym
        rw [hhr]
        simp
      · have hstep : cmd_list_fold (none, none, lines0) r = (none, none, lines0) := by
          unfold cmd_list_fold
          dsimp only
          rw [if_neg hname, if_neg hp]
        rw [hstep, ih hwfr hnr lines0,
          direct_lines_cons_neg r rest (by simp [hp])]
        unfold head_direct head_sym
        rw [hhr]

theorem objects_select_len_le (db : List ObjRow) (repo : Nat) (oid : List Nat)
    (hkey : db.Pairwise (fun a b => a.repo_id ≠ b.repo_id ∨ a.oid ≠ b.oid)) :
    (objects_select db repo oid).length ≤ 1 := by
  unfold objects_select
  cases hfil : db.filter (fun r => r.repo_id == repo && r.oid == oid) with
  | nil => simp
  | cons x xs =>
    cases hxs : xs with
    | nil => simp
    | cons y ys =>
      exfalso
      have hsub : List.Sublist (x :: y :: ys) db := by
        rw [← hxs, ← hfil]
        exact List.filter_sublist db
      have hpw := hkey.sublist hsub
      have hxy := (List.pairwise_cons.mp hpw).1 y (List.mem_cons_self _ _)
      have hx0 : x ∈ db.filter (fun r => r.repo_id == repo && r.oid == oid) := by
        rw [hfil]
        exact List.mem_cons_self x xs
      have hy0 : y ∈ db.filter (fun r => r.repo_id == repo && r.oid == oid) := by
        rw [hfil, hxs]
        exact List.mem_cons_of_mem _ (List.mem_cons_self _ _)
      have hx := List.of_mem_filter hx0
      have hy := List.of_mem_filter hy0
      simp only [Bool.and_eq_true, beq_iff_eq] at hx hy
      rcases hxy with h | h
      · exact h (hx.1.trans hy.1.symm)
      · exact h (hx.2.trans hy.2.symm)

theorem objects_select_pfx_full (db : List ObjRow) (repo : Nat) (short : List Nat)
    (hdb : ∀ r ∈ db, r.oid.length = 20) (hshort : short.length = 20) :
    objects_select_pfx db repo short 20 = objects_select db repo short := by
  unfold objects_select_pfx objects_select
  apply List.filter_congr
  intro r hr
  have h1 : r.oid.take 20 = r.oid := List.take_of_length_le (by rw [hdb r hr])
  have h2 : short.take 20 = short := List.take_of_length_le (by rw [hshort])
  rw [h1, h2]

set_option maxRecDepth 10000 in
theorem hash_hello_digest :
    git_object_hash_c 3 [104, 101, 108, 108, 111] =
      .ok [182, 252, 76, 98, 11, 103, 217, 95, 149, 58, 92, 28, 18, 48, 170, 171, 93, 181,
           161, 176] := by
  decide

set_option maxRecDepth 10000 in
theorem hash_empty_digest :
    git_object_hash_c 3 [] =
      .ok [230, 157, 226, 155, 178, 209, 214, 67, 75, 139, 41, 174, 119, 90, 216, 194, 228,
           140, 83, 145] := by
  decide

/-! # Claim theorems -/

/-- C7: the OID codec rejects any input whose length is not 40 or which
contains a byte outside `[0-9a-fA-F]`; accepted input parses the same
after ASCII lower-casing; formatted output consists solely of lowercase
hex digits; and parsing inverts formatting on every 20-byte OID. -/
theorem git_oid_codec_spec :
    (∀ s, s.length ≠ 40 → git_oid_in s = none)
    ∧ (∀ s b, b ∈ s → ¬ is_hex_byte b → git_oid_in s = none)
    ∧ (∀ s o, git_oid_in s = some o → git_oid_in (s.map lower_byte) = some o)
    ∧ (∀ oid c, c ∈ git_oid_out oid → is_lower_hex_byte c)
    ∧ (∀ oid, oid.length = 20 → (∀ b ∈ oid, b < 256) →
        git_oid_in (git_oid_out oid) = some oid) := by
  refine ⟨?_, ?_, ?_, git_oid_out_lower, ?_⟩
  · intro s h
    unfold git_oid_in
    rw [if_pos h]
  · intro s b hb hbad
    unfold git_oid_in
    split_ifs with h
    · rfl
    · exact git_oid_in_pairs_bad s b hb hbad
  · intro s o h
    unfold git_oid_in at *
    split_ifs at h with hl
    rw [if_neg (by simpa using hl)]
    exact git_oid_in_pairs_lower s o h
  · intro oid hlen hb
    unfold git_oid_in
    rw [git_oid_out_length, hlen, if_neg (by omega)]
    exact git_oid_in_pairs_round oid hb

/-- Witness for C7 at concrete inputs: a 1-byte string is rejected, a
40-byte string containing 'g' is rejected, parsing forty 'A's equals
parsing forty 'a's, 'a' is a lowercase hex output byte, and the
round-trip holds on the all-0xFF OID. -/
theorem git_oid_codec_spec_witness :
    git_oid_in [48] = none
    ∧ git_oid_in (103 :: List.replicate 39 48) = none
    ∧ git_oid_in (List.map lower_byte (List.replicate 40 65)) = some (List.replicate 20 170)
    ∧ is_lower_hex_byte 97
    ∧ git_oid_in (git_oid_out (List.replicate 20 255)) = some (List.replicate 20 255) := by
  obtain ⟨h1, h2, h3, h4, h5⟩ := git_oid_codec_spec
  exact ⟨h1 [48] (by decide), h2 _ 103 (by decide) (by decide),
         h3 (List.replicate 40 65) _ (by decide),
         h4 [170] 97 (by decide), h5 _ (by decide) (by decide)⟩

/-- C6: at any position, the tree-entry parser raises `truncatedOid`
exactly when the space and NUL were found but fewer than 20 bytes
remain after the NUL (`data.length < null_pos + 21`); an accepted entry
requires `null_pos + 21 ≤ data.length`, consumes exactly the 20 bytes
after the NUL as the OID, and advances the position to
`null_pos + 21` — so the source's conjunctive bounds check never lets a
one-byte-short record through. -/
theorem tree_entry_step_oid_spec (data : List Nat) (pos : Nat) :
    (tree_entry_step data pos = .error .truncatedOid ↔
      scan_pos data 32 pos < data.length ∧
      scan_pos data 0 (scan_pos data 32 pos + 1) < data.length ∧
      data.length < scan_pos data 0 (scan_pos data 32 pos + 1) + 21)
    ∧ (∀ e pos', tree_entry_step data pos = .ok (e, pos') →
        scan_pos data 0 (scan_pos data 32 pos + 1) + 21 ≤ data.length ∧
        pos' = scan_pos data 0 (scan_pos data 32 pos + 1) + 21 ∧
        e.oid = (data.drop (scan_pos data 0 (scan_pos data 32 pos + 1) + 1)).take 20 ∧
        e.oid.length = 20) := by
  unfold tree_entry_step
  dsimp only
  set sp := scan_pos data 32 pos with hsp
  set np := scan_pos data 0 (sp + 1) with hnp
  split_ifs with h1 h2 h3
  · constructor
    · constructor
      · intro h; cases h
      · intro h; omega
    · intro e pos' h; cases h
  · constructor
    · constructor
      · intro h; cases h
      · intro h; omega
    · intro e pos' h; cases h
  · constructor
    · constructor
      · intro _; omega
      · intro _; rfl
    · intro e pos' h; cases h
  · constructor
    · constructor
      · intro h; cases h
      · intro h; omega
    · intro e pos' h
      injection h with h'
      injection h' with he hpos
      subst he
      subst hpos
      refine ⟨by omega, by omega, rfl, ?_⟩
      simp only [List.length_take, List.length_drop]
      omega

/-- Witness for C6: the record `"100644 a\0"` followed by only 19 OID
bytes (one byte short) is rejected with `truncatedOid`, through the
theorem's iff. -/
theorem tree_entry_step_oid_spec_witness :
    tree_entry_step ([49, 48, 48, 54, 52, 52, 32, 97, 0] ++ List.replicate 19 170) 0 =
      .error .truncatedOid := by
  exact (tree_entry_step_oid_spec ([49, 48, 48, 54, 52, 52, 32, 97, 0] ++
    List.replicate 19 170) 0).1.mpr (by decide)

/-- C1: for type codes 1/2/3/4 the object hasher returns the raw
20-byte SHA-1 of `"<type-name> <decimal-size>\0<content>"`; any other
code fails with `invalidType`; and in particular the blob `"hello"`
hashes to `b6fc4c620b67d95f953a5c1c1230aaab5db5a1b0` and the empty blob
to `e69de29bb2d1d6434b8b29ae775ad8c2e48c5391`. -/
theorem git_object_hash_c_spec (t : Int) (content : List Nat) :
    (t = 1 → git_object_hash_c t content =
      .ok (sha1 (([99, 111, 109, 109, 105, 116] ++ 32 :: decDigits content.length ++ [0]) ++
        content)))
    ∧ (t = 2 → git_object_hash_c t content =
      .ok (sha1 (([116, 114, 101, 101] ++ 32 :: decDigits content.length ++ [0]) ++ content)))
    ∧ (t = 3 → git_object_hash_c t content =
      .ok (sha1 (([98, 108, 111, 98] ++ 32 :: decDigits content.length ++ [0]) ++ content)))
    ∧ (t = 4 → git_object_hash_c t content =
      .ok (sha1 (([116, 97, 103] ++ 32 :: decDigits content.length ++ [0]) ++ content)))
    ∧ (t ≠ 1 → t ≠ 2 → t ≠ 3 → t ≠ 4 →
        git_object_hash_c t content = .error .invalidType)
    ∧ (∀ d, git_object_hash_c t content = .ok d → d.length = 20)
    ∧ git_object_hash_c 3 [104, 101, 108, 108, 111] =
        .ok [182, 252, 76, 98, 11, 103, 217, 95, 149, 58, 92, 28, 18, 48, 170, 171, 93, 181,
             161, 176]
    ∧ git_object_hash_c 3 [] =
        .ok [230, 157, 226, 155, 178, 209, 214, 67, 75, 139, 41, 174, 119, 90, 216, 194, 228,
             140, 83, 145] := by
  refine ⟨?_, ?_, ?_, ?_, ?_, ?_, ?_, ?_⟩
  · intro h; subst h; rfl
  · intro h; subst h; rfl
  · intro h; subst h; rfl
  · intro h; subst h; rfl
  · intro h1 h2 h3 h4
    simp [git_object_hash_c, git_type_name, h1, h2, h3, h4]
  · intro d hd
    unfold git_object_hash_c at hd
    cases hname : git_type_name t with
    | none => rw [hname] at hd; cases hd
    | some nm =>
      rw [hname] at hd
      injection hd with hd'
      rw [← hd']
      exact sha1_length _
  · exact hash_hello_digest
  · exact hash_empty_digest

/-- Witness for C1: a tree with empty content hashes to
`SHA1("tree 0\0")` and type code 5 is rejected, through the theorem. -/
theorem git_object_hash_c_spec_witness :
    git_object_hash_c 2 [] =
      .ok (sha1 (([116, 114, 101, 101] ++ 32 :: decDigits (List.length ([] : List Nat)) ++
        [0]) ++ []))
    ∧ git_object_hash_c 5 [] = .error .invalidType := by
  exact ⟨(git_object_hash_c_spec 2 []).2.1 rfl,
         (git_object_hash_c_spec 5 []).2.2.2.2.1 (by decide) (by decide) (by decide) (by decide)⟩

/-- C10: when the `SELECT 1` round-trip of `pg_odb_exists` fails at the
database level, the function returns `0` (absent) instead of
propagating an error — the same answer as for an object that is
genuinely missing, so the two situations are indistinguishable at the
`exists` interface. -/
theorem pg_odb_exists_failure_spec :
    pg_odb_exists .failed = 0
    ∧ (∀ db repo oid, objects_select db repo oid = [] →
        pg_odb_exists (.ok (objects_select db repo oid)) = 0)
    ∧ pg_odb_exists .failed = pg_odb_exists (.ok ([] : List ObjRow)) := by
  refine ⟨rfl, ?_, rfl⟩
  intro db repo oid h
  rw [h]
  rfl

/-- Witness for C10: a missing object on a concrete one-row table
yields `0`, through the theorem. -/
theorem pg_odb_exists_failure_spec_witness :
    pg_odb_exists (.ok (objects_select [⟨1, [0], 3, 0, []⟩] 2 [0])) = 0 := by
  exact pg_odb_exists_failure_spec.2.1 [⟨1, [0], 3, 0, []⟩] 2 [0] (by decide)

/-- C5: writing the same `(type, content)` twice through
`git_object_write` returns the OID both times (`isSome`, and the two
returned OIDs agree), the second call leaves the table unchanged, and
exactly one row with that key is stored; moreover `pg_odb_write`'s
insert-or-ignore is idempotent on any row. -/
theorem git_object_write_idem (db : List ObjRow) (repo : Nat) (t : Int) (content : List Nat)
    (ht : t = 1 ∨ t = 2 ∨ t = 3 ∨ t = 4)
    (hfresh : ∀ r ∈ db, ¬(r.repo_id = repo ∧ some r.oid = git_object_hash t content)) :
    (git_object_write db repo t content).1.isSome
    ∧ (git_object_write (git_object_write db repo t content).2 repo t content).1 =
        (git_object_write db repo t content).1
    ∧ (git_object_write (git_object_write db repo t content).2 repo t content).2 =
        (git_object_write db repo t content).2
    ∧ ((git_object_write (git_object_write db repo t content).2 repo t content).2.filter
        (fun r => r.repo_id == repo &&
          some r.oid == (git_object_write db repo t content).1)).length = 1
    ∧ (∀ oid data ty, pg_odb_write (pg_odb_write db repo oid data ty) repo oid data ty =
        pg_odb_write db repo oid data ty) := by
  obtain ⟨hsh, hhash⟩ : ∃ h, git_object_hash t content = some h := by
    rcases ht with h | h | h | h <;> subst h <;> exact ⟨_, rfl⟩
  have hnotmem : ∀ r ∈ db, ¬(r.repo_id = repo ∧ r.oid = hsh) := by
    intro r hr hcon
    exact hfresh r hr ⟨hcon.1, by rw [hhash, hcon.2]⟩
  have hany : (db.any fun r => r.repo_id == repo && r.oid == hsh) = false := by
    rw [List.any_eq_false]
    intro r hr
    simp only [Bool.and_eq_true, beq_iff_eq]
    exact hnotmem r hr
  have hins : objects_insert db ⟨repo, hsh, t.toNat, content.length, content⟩ =
      db ++ [⟨repo, hsh, t.toNat, content.length, content⟩] := by
    unfold objects_insert
    rw [if_neg (by rw [hany]; exact fun h => by cases h)]
  have hw1 : git_object_write db repo t content =
      (some hsh, db ++ [⟨repo, hsh, t.toNat, content.length, content⟩]) := by
    simp [git_object_write, hhash, hins]
  have hany2 : ((db ++ [(⟨repo, hsh, t.toNat, content.length, content⟩ : ObjRow)]).any
      fun r => r.repo_id == repo && r.oid == hsh) = true := by
    rw [List.any_append]
    simp
  have hins2 : objects_insert (db ++ [(⟨repo, hsh, t.toNat, content.length, content⟩ : ObjRow)])
      ⟨repo, hsh, t.toNat, content.length, content⟩ =
      db ++ [⟨repo, hsh, t.toNat, content.length, content⟩] := by
    unfold objects_insert
    rw [if_pos hany2]
  have hw2 : git_object_write (db ++ [(⟨repo, hsh, t.toNat, content.length, content⟩ : ObjRow)])
      repo t content = (some hsh, db ++ [⟨repo, hsh, t.toNat, content.length, content⟩]) := by
    simp [git_object_write, hhash, hins2]
  refine ⟨?_, ?_, ?_, ?_, ?_⟩
  · rw [hw1]; rfl
  · rw [hw1, hw2]
  · rw [hw1, hw2]
  · rw [hw1, hw2]
    simp only [List.filter_append]
    rw [List.filter_eq_nil_iff.mpr (by
      intro r hr
      simp only [Bool.and_eq_true, beq_iff_eq, Option.some.injEq, not_and]
      intro h1 h2
      exact hnotmem r hr ⟨h1, h2⟩)]
    simp
  · intro oid data ty
    unfold pg_odb_write
    exact objects_insert_idem db _

/-- Witness for C5: writing blob `"hi"` twice into an empty table
returns an OID and the second write is a no-op, through the theorem. -/
theorem git_object_write_idem_witness :
    (git_object_write [] 1 3 [104, 105]).1.isSome
    ∧ (git_object_write (git_object_write [] 1 3 [104, 105]).2 1 3 [104, 105]).2 =
        (git_object_write [] 1 3 [104, 105]).2 := by
  obtain ⟨h1, h2, h3, h4, h5⟩ := git_object_write_idem [] 1 3 [104, 105] (by decide) (by simp)
  exact ⟨h1, h3⟩

/-- C4: the schema's XOR constraint (`refs_check`, exactly one of `oid`
and `symbolic` non-null) is preserved by every ref-store table
operation — the direct and symbolic upserts (issued by both
`pg_refdb_write` and `pg_refdb_unlock`'s write disposition), the row
rename, the delete, and the whole of `pg_refdb_write` — and upserting a
direct ref sets `symbolic` to NULL while upserting a symbolic ref sets
`oid` to NULL. -/
theorem refs_xor_invariant :
    (∀ db repo name oid, (∀ r ∈ db, refs_check r = true) →
        ∀ r ∈ refs_upsert_direct db repo name oid, refs_check r = true)
    ∧ (∀ db repo name target, (∀ r ∈ db, refs_check r = true) →
        ∀ r ∈ refs_upsert_symbolic db repo name target, refs_check r = true)
    ∧ (∀ db repo old_name new_name, (∀ r ∈ db, refs_check r = true) →
        ∀ r ∈ refs_rename db repo old_name new_name, refs_check r = true)
    ∧ (∀ db repo name, (∀ r ∈ db, refs_check r = true) →
        ∀ r ∈ refs_delete db repo name, refs_check r = true)
    ∧ (∀ db repo name tgt force old old_target, (∀ r ∈ db, refs_check r = true) →
        ∀ r ∈ (pg_refdb_write db repo name tgt force old old_target).2,
          refs_check r = true)
    ∧ (∀ db repo name oid, ∀ r ∈ refs_upsert_direct db repo name oid,
        r.repo_id = repo → r.name = name → r.oid = some oid ∧ r.symbolic = none)
    ∧ (∀ db repo name target, ∀ r ∈ refs_upsert_symbolic db repo name target,
        r.repo_id = repo → r.name = name → r.oid = none ∧ r.symbolic = some target) := by
  refine ⟨refs_upsert_direct_check, refs_upsert_symbolic_check, refs_rename_check,
          refs_delete_check, ?_, refs_upsert_direct_fields, refs_upsert_symbolic_fields⟩
  intro db repo name tgt force old old_target hdb r hr
  rcases pg_refdb_write_snd db repo name tgt force old old_target with h | h
  · rw [h] at hr
    exact hdb r hr
  · rw [h] at hr
    exact refdb_upsert_check db repo name tgt hdb r hr

/-- Witness for C4: the row produced by upserting a direct ref into an
empty table satisfies the XOR constraint, through the theorem. -/
theorem refs_xor_invariant_witness :
    refs_check ⟨1, "refs/heads/main", some [170], none⟩ = true := by
  obtain ⟨h1, -, -, -, -, -, -⟩ := refs_xor_invariant
  exact h1 [] 1 "refs/heads/main" [170] (fun r hr => absurd hr (List.not_mem_nil r))
    ⟨1, "refs/heads/main", some [170], none⟩ (by decide)

/-- C2 counterexample: the compare-and-swap-mismatch failure and the
already-exists failure of `pg_refdb_write` return the same error code
`GIT_EEXISTS` — they are not distinct error kinds — and a supplied
`old_oid` expectation against a symbolic ref fails with the generic
`-1`, not with a CAS error code. -/
theorem pg_refdb_write_error_kinds_cex :
    (pg_refdb_write [⟨1, "refs/heads/main", some (List.replicate 20 170), none⟩] 1
        "refs/heads/main" (.direct (List.replicate 20 187)) false
        (some (List.replicate 20 204)) none).1 =
      (pg_refdb_write [⟨1, "refs/heads/main", some (List.replicate 20 170), none⟩] 1
        "refs/heads/main" (.direct (List.replicate 20 187)) false none none).1
    ∧ (pg_refdb_write [⟨1, "refs/heads/main", some (List.replicate 20 170), none⟩] 1
        "refs/heads/main" (.direct (List.replicate 20 187)) false
        (some (List.replicate 20 204)) none).1 = .eexists
    ∧ (pg_refdb_write [⟨1, "HEAD", none, some "refs/heads/main"⟩] 1 "HEAD"
        (.direct (List.replicate 20 187)) false (some (List.replicate 20 170)) none).1 =
      .generic := by
  exact ⟨by decide, by decide, by decide⟩

/-- C2 (amended): for a non-forced write, a supplied expectation on a
missing ref fails with `GIT_ENOTFOUND`; an `old_oid` against a symbolic
row, or an `old_target` against a direct row, fails with the generic
`-1`; a value mismatch fails with `GIT_EEXISTS`; with no expectation an
existing ref fails with `GIT_EEXISTS` (the same code as the CAS
mismatch) and a missing ref is created; when every supplied expectation
matches, the upsert runs; and every non-`ok` outcome leaves the refs
table unchanged (the rollback). -/
theorem pg_refdb_write_cas_spec (db : List RefRow) (repo : Nat) (name : String)
    (tgt : RefTarget) (old : Option (List Nat)) (old_target : Option String) :
    ((old.isSome ∨ old_target.isSome) → refs_select db repo name = [] →
        pg_refdb_write db repo name tgt false old old_target = (.notFound, db))
    ∧ (∀ r rest o, refs_select db repo name = r :: rest → old = some o → r.oid = none →
        pg_refdb_write db repo name tgt false old old_target = (.generic, db))
    ∧ (∀ r rest o cur, refs_select db repo name = r :: rest → old = some o →
        r.oid = some cur → cur ≠ o →
        pg_refdb_write db repo name tgt false old old_target = (.eexists, db))
    ∧ (∀ r rest t, refs_select db repo name = r :: rest → old_oid_passes old r →
        old_target = some t → r.symbolic = none →
        pg_refdb_write db repo name tgt false old old_target = (.generic, db))
    ∧ (∀ r rest t cur, refs_select db repo name = r :: rest → old_oid_passes old r →
        old_target = some t → r.symbolic = some cur → cur ≠ t →
        pg_refdb_write db repo name tgt false old old_target = (.eexists, db))
    ∧ (old = none → old_target = none → refs_select db repo name ≠ [] →
        pg_refdb_write db repo name tgt false old old_target = (.eexists, db))
    ∧ (old = none → old_target = none → refs_select db repo name = [] →
        pg_refdb_write db repo name tgt false old old_target =
          (.ok, refdb_upsert db repo name tgt))
    ∧ (∀ r rest, refs_select db repo name = r :: rest → (old.isSome ∨ old_target.isSome) →
        old_oid_passes old r → old_target_passes old_target r →
        pg_refdb_write db repo name tgt false old old_target =
          (.ok, refdb_upsert db repo name tgt))
    ∧ (∀ res db', pg_refdb_write db repo name tgt false old old_target = (res, db') →
        res ≠ .ok → db' = db) := by
  refine ⟨?_, ?_, ?_, ?_, ?_, ?_, ?_, ?_, ?_⟩
  · intro hgiven hsel
    unfold pg_refdb_write
    rw [if_neg Bool.false_ne_true]
    dsimp only
    rw [hsel, if_pos (by rcases hgiven with h | h <;> simp [h])]
  · intro r rest o hsel hold hroid
    subst hold
    unfold pg_refdb_write
    rw [if_neg Bool.false_ne_true]
    dsimp only
    rw [hsel, if_pos (by simp)]
    dsimp only
    rw [hroid]
  · intro r rest o cur hsel hold hroid hne
    subst hold
    unfold pg_refdb_write
    rw [if_neg Bool.false_ne_true]
    dsimp only
    rw [hsel, if_pos (by simp)]
    dsimp only
    rw [hroid]
    dsimp only
    rw [if_pos hne]
  · intro r rest t hsel hpass ht hsym
    subst ht
    rw [pg_refdb_write_reduce db repo name tgt old (some t) r rest hsel (by simp) hpass]
    exact tc_sym_none db repo name tgt t r hsym
  · intro r rest t cur hsel hpass ht hsym hne
    subst ht
    rw [pg_refdb_write_reduce db repo name tgt old (some t) r rest hsel (by simp) hpass]
    exact tc_mismatch db repo name tgt t cur r hsym hne
  · intro hold ht hne
    subst hold
    subst ht
    unfold pg_refdb_write
    rw [if_neg Bool.false_ne_true]
    dsimp only
    rw [if_neg (by simp), if_pos (by simpa [List.length_pos] using hne)]
  · intro hold ht hsel
    subst hold
    subst ht
    unfold pg_refdb_write
    rw [if_neg Bool.false_ne_true]
    dsimp only
    rw [if_neg (by simp), hsel, if_neg (by simp)]
  · intro r rest hsel hgiven hpass htpass
    rw [pg_refdb_write_reduce db repo name tgt old old_target r rest hsel
      (by rcases hgiven with h | h <;> simp [h]) hpass]
    exact tc_pass db repo name tgt old_target r htpass
  · intro res db' heq hres
    rcases pg_refdb_write_cases db repo name tgt old old_target with h | h
    · rw [heq] at h
      exact absurd (congrArg Prod.fst h) hres
    · rw [heq] at h
      exact h.2

/-- Witness for C2 (amended): a CAS update expecting `0xcc...` against
a ref currently at `0xaa...` fails with `GIT_EEXISTS` and leaves the
table unchanged, through the theorem. -/
theorem pg_refdb_write_cas_spec_witness :
    pg_refdb_write [⟨1, "refs/heads/main", some [170], none⟩] 1 "refs/heads/main"
      (.direct [187]) false (some [204]) none =
      (.eexists, [⟨1, "refs/heads/main", some [170], none⟩]) := by
  obtain ⟨-, -, h3, -⟩ := pg_refdb_write_cas_spec
    [⟨1, "refs/heads/main", some [170], none⟩] 1 "refs/heads/main"
    (.direct [187]) (some [204]) none
  exact h3 ⟨1, "refs/heads/main", some [170], none⟩ [] [204] [170] (by decide) rfl rfl
    (by decide)

/-- C8: for a well-formed, uniquely-named refs result set, `cmd_list`
emits one `"<hex-oid> <name>"` line per non-`HEAD` row carrying an OID
(in result-set order), then the `HEAD` line — `"@<target> HEAD"` when
`HEAD` is symbolic and its target exists as a row with an OID,
`"<hex-oid> HEAD"` when `HEAD` is direct — and terminates with a blank
line. -/
theorem cmd_list_spec (rows : List ListRow)
    (hwf : ∀ r ∈ rows, list_row_wf r)
    (hnames : rows.Pairwise (fun a b => a.name ≠ b.name)) :
    cmd_list rows = direct_lines_spec rows ++ head_lines_spec rows ++ [""] := by
  have hdl : direct_lines rows = direct_lines_spec rows := by
    unfold direct_lines direct_lines_spec
    congr 1
    apply List.filter_congr
    intro r hr
    rcases hwf r hr with ⟨h, hoid, hne, -⟩ | ⟨t, -, -, hoid⟩
    · have hp := string_len_pos h hne
      simp [col_present, hoid, hp]
    · simp [col_present, hoid]
  unfold cmd_list
  rw [cmd_list_fold_spec rows hwf hnames []]
  dsimp only
  rw [List.nil_append, hdl]
  unfold head_lines_spec head_sym head_direct
  cases hh : head_row rows with
  | none =>
    simp
  | some hr =>
    dsimp only [Option.bind]
    have hmem : hr ∈ rows := by
      have := List.mem_of_find?_eq_some hh
      exact this
    rcases hwf hr hmem with ⟨h, hoid, hne, hsym⟩ | ⟨t, hsymt, htne, hoidn⟩
    · rw [hsym, hoid]
    · rw [hsymt]
      dsimp only
      cases hres : resolve_head rows t with
      | some o =>
        have hany : (rows.any fun r => r.name == t && r.oid_hex.isSome) = true := by
          unfold resolve_head at hres
          cases hf : rows.find? (fun r => r.name == t && r.oid_hex.isSome) with
          | none => rw [hf] at hres; cases hres
          | some r' =>
            have hq := List.find?_some hf
            rw [List.any_eq_true]
            exact ⟨r', List.mem_of_find?_eq_some hf, hq⟩
        rw [if_pos hany]
      | none =>
        have hany : ¬(rows.any fun r => r.name == t && r.oid_hex.isSome) = true := by
          intro hco
          unfold resolve_head at hres
          cases hf : rows.find? (fun r => r.name == t && r.oid_hex.isSome) with
          | none =>
            obtain ⟨x, hx, hpx⟩ := List.any_eq_true.mp hco
            have : (rows.find? (fun r => r.name == t && r.oid_hex.isSome)).isSome := by
              rw [List.find?_isSome]
              exact ⟨x, hx, hpx⟩
            rw [hf] at this
            cases this
          | some r' =>
            rw [hf] at hres
            dsimp only at hres
            have hq := List.find?_some hf
            have hq2 : r'.oid_hex.isSome = true := (Bool.and_eq_true _ _ |>.mp hq).2
            cases ho : r'.oid_hex with
            | none => rw [ho] at hq2; cases hq2
            | some o => rw [ho] at hres; cases hres
        rw [if_neg hany]

/-- Witness for C8: two concrete rows — a symbolic `HEAD` and a direct
branch — list as the branch line, the `"@<target> HEAD"` line and a
blank line, through the theorem. -/
theorem cmd_list_spec_witness :
    cmd_list [⟨"HEAD", none, some "refs/heads/main"⟩,
              ⟨"refs/heads/main", some "aa00", none⟩] =
      ["aa00 refs/heads/main", "@refs/heads/main HEAD", ""] := by
  have h := cmd_list_spec
    [⟨"HEAD", none, some "refs/heads/main"⟩, ⟨"refs/heads/main", some "aa00", none⟩]
    (by
      intro r hr
      rcases List.mem_cons.mp hr with h | h
      · subst h
        right
        exact ⟨"refs/heads/main", rfl, by decide, rfl⟩
      · rcases List.mem_cons.mp h with h' | h'
        · subst h'
          left
          exact ⟨"aa00", rfl, by decide, rfl⟩
        · cases h')
    (by decide)
  rw [h]
  decide

/-- C3: for `prefix_len ∈ [1, 40]` the read-prefix operation compares
exactly `(prefix_len + 1) / 2 = ⌈prefix_len / 2⌉` leading OID bytes:
with no matching row it fails `notFound`; with exactly one it returns
that row's full OID (written to the out buffer on the true prefix path;
on the full-length path the single match is `short` itself), type, size
and content; with more than one it fails `ambiguous` (which, with
20-byte OIDs and unique keys, can only happen below full length); and a
full-length lookup short-circuits through the exact-match
`pg_odb_read`. -/
theorem pg_odb_read_pfx_spec (out0 : List Nat) (db : List ObjRow) (repo : Nat)
    (short : List Nat) (len : Nat)
    (hdb : ∀ r ∈ db, r.oid.length = 20) (hshort : short.length = 20)
    (hkey : db.Pairwise (fun a b => a.repo_id ≠ b.repo_id ∨ a.oid ≠ b.oid))
    (hlo : 1 ≤ len) (hhi : len ≤ 40) :
    (objects_select_pfx db repo short ((len + 1) / 2) = [] →
        pg_odb_read_pfx out0 db repo short len = .error .notFound)
    ∧ (∀ r, objects_select_pfx db repo short ((len + 1) / 2) = [r] → len < 40 →
        pg_odb_read_pfx out0 db repo short len = .ok (r.oid, r.type, r.size, r.content))
    ∧ (∀ r, objects_select_pfx db repo short ((len + 1) / 2) = [r] → len = 40 →
        r.oid = short ∧
        pg_odb_read_pfx out0 db repo short len = .ok (out0, r.type, r.size, r.content))
    ∧ (2 ≤ (objects_select_pfx db repo short ((len + 1) / 2)).length →
        pg_odb_read_pfx out0 db repo short len = .error .ambiguous ∧ len < 40)
    ∧ (len = 40 →
        pg_odb_read_pfx out0 db repo short len =
          match pg_odb_read db repo short with
          | .error e => .error e
          | .ok (t, s, c) => .ok (out0, t, s, c)) := by
  refine ⟨?_, ?_, ?_, ?_, ?_⟩
  · intro hm
    by_cases h40 : len = 40
    · subst h40
      norm_num at hm
      have hms : objects_select db repo short = [] := by
        rw [← objects_select_pfx_full db repo short hdb hshort]
        exact hm
      unfold pg_odb_read_pfx
      rw [if_pos rfl]
      unfold pg_odb_read
      rw [hms]
    · unfold pg_odb_read_pfx
      rw [if_neg h40]
      dsimp only
      rw [hm]
  · intro r hm hlt
    unfold pg_odb_read_pfx
    rw [if_neg (by omega)]
    dsimp only
    rw [hm]
  · intro r hm h40
    subst h40
    norm_num at hm
    have hms : objects_select db repo short = [r] := by
      rw [← objects_select_pfx_full db repo short hdb hshort]
      exact hm
    have hrmem : r ∈ db.filter (fun x => x.repo_id == repo && x.oid == short) := by
      have : r ∈ objects_select db repo short := by
        rw [hms]
        exact List.mem_cons_self _ _
      exact this
    have hroid : r.oid = short := by
      have hp := List.of_mem_filter hrmem
      have hp2 : r.repo_id = repo ∧ r.oid = short := by
        simpa [Bool.and_eq_true, beq_iff_eq] using hp
      exact hp2.2
    refine ⟨hroid, ?_⟩
    unfold pg_odb_read_pfx
    rw [if_pos rfl]
    unfold pg_odb_read
    rw [hms]
  · intro h2
    have hlt : len < 40 := by
      by_contra hge
      have h40 : len = 40 := by omega
      subst h40
      norm_num at h2
      rw [objects_select_pfx_full db repo short hdb hshort] at h2
      have := objects_select_len_le db repo short hkey
      omega
    refine ⟨?_, hlt⟩
    unfold pg_odb_read_pfx
    rw [if_neg (by omega)]
    dsimp only
    cases hfil : objects_select_pfx db repo short ((len + 1) / 2) with
    | nil => rw [hfil] at h2; simp at h2
    | cons x xs =>
      cases hxs : xs with
      | nil =>
        rw [hfil, hxs] at h2
        simp at h2
      | cons y ys =>
        rw [hxs] at hfil
  · intro h40
    subst h40
    unfold pg_odb_read_pfx
    rw [if_pos rfl]

/-- Witness for C3: a two-hex-character lookup matching two stored
objects that share their first OID byte fails with `ambiguous`, through
the theorem. -/
theorem pg_odb_read_pfx_spec_witness :
    pg_odb_read_pfx [] [⟨1, 170 :: List.replicate 19 0, 3, 5, [104, 101, 108, 108, 111]⟩,
        ⟨1, 170 :: 187 :: List.replicate 18 0, 2, 0, []⟩] 1
      (170 :: List.replicate 19 0) 2 = .error .ambiguous := by
  obtain ⟨-, -, -, h4, -⟩ := pg_odb_read_pfx_spec []
    [⟨1, 170 :: List.replicate 19 0, 3, 5, [104, 101, 108, 108, 111]⟩,
     ⟨1, 170 :: 187 :: List.replicate 18 0, 2, 0, []⟩] 1
    (170 :: List.replicate 19 0) 2
    (by decide) (by decide) (by decide) (by decide) (by decide)
  exact (h4 (by decide)).1

end Gitgres
